import Mathlib

/-!
# Verification of `meta_git_cli` against its specification

Shallow embedding of the core data structures and operations of the
`meta_git_cli` repository (Rust), together with proofs and refutations of
the specification claims about them.

Conventions:
* Rust `Vec<CloneTask>` becomes `List CloneTask` with `push` appending at the
  end and `pop` taking the last element (LIFO), exactly as in the source.
* Rust `HashSet<PathBuf>` becomes a duplicate-free `List String` with
  membership-checked insertion (`insertSet`); only membership and cardinality
  are observable, matching the source.
* Rust atomic counters become `Nat` fields updated in the same program order
  as the source's `fetch_add` calls.
* Filesystem-dependent inputs (which manifest projects exist on disk, whether
  a `git` subprocess succeeded) are abstracted as explicit parameters; the
  control flow acting on them is translated verbatim.
-/

namespace MetaGit

/-- Source `src/clone_queue.rs` — `CloneTask`: a single repository to clone.
Identity of a task is its `target_path`. -/
structure CloneTask where
  name : String
  url : String
  targetPath : String
  depthLevel : Nat
deriving DecidableEq, Repr

/-- Source `src/clone_queue.rs` — `CloneQueue` state: pending tasks, completed and
failed path sets, discovery/progress counters, clone options. -/
structure CloneQueue where
  pending : List CloneTask
  completed : List String
  failed : List String
  totalDiscovered : Nat
  totalCompleted : Nat
  gitDepth : Option String
  metaDepth : Option Nat
deriving DecidableEq, Repr

/-- Membership-checked insertion, modelling `HashSet::insert`. -/
def insertSet (s : List String) (x : String) : List String :=
  if x ∈ s then s else x :: s

/-- Source `CloneQueue::new`. -/
def CloneQueue.new (gitDepth : Option String) (metaDepth : Option Nat) : CloneQueue :=
  { pending := []
    completed := []
    failed := []
    totalDiscovered := 0
    totalCompleted := 0
    gitDepth := gitDepth
    metaDepth := metaDepth }

/-- Source `CloneQueue::push`: reject if the target path is already completed or
already pending; otherwise append to `pending` and bump `total_discovered`.
Returns `true` iff the task was added. -/
def CloneQueue.push (q : CloneQueue) (task : CloneTask) : Bool × CloneQueue :=
  if task.targetPath ∈ q.completed then
    (false, q)
  else if q.pending.any (fun t => t.targetPath = task.targetPath) then
    (false, q)
  else
    (true, { q with
      pending := q.pending ++ [task]
      totalDiscovered := q.totalDiscovered + 1 })

/-- A manifest project as seen by `push_from_meta`: display name, repo url and
the joined target path (`base_dir.join(&project.path)`). Only projects whose
target path does not yet exist on disk reach `CloneQueue::push`; projects that
already exist are recursed into, which surfaces as further `push_from_meta`
calls and is modelled as such in the transition system below. -/
structure MetaProject where
  name : String
  repo : String
  targetPath : String
deriving DecidableEq, Repr

/-- Inner loop of `CloneQueue::push_from_meta`: push one task per project at
the given depth level, counting how many were added. -/
def CloneQueue.pushProjects (q : CloneQueue) (projects : List MetaProject)
    (depthLevel : Nat) : Nat × CloneQueue :=
  projects.foldl
    (fun acc project =>
      let (added, q') := acc.2.push
        { name := project.name
          url := project.repo
          targetPath := project.targetPath
          depthLevel := depthLevel }
      (acc.1 + (if added then 1 else 0), q'))
    (0, q)

/-- Source `CloneQueue::push_from_meta`: bail out (adding nothing) when the depth
level exceeds the `meta_depth` budget, otherwise push one task per
not-yet-existing project of the manifest found at the base directory. -/
def CloneQueue.pushFromMeta (q : CloneQueue) (projects : List MetaProject)
    (depthLevel : Nat) : Nat × CloneQueue :=
  match q.metaDepth with
  | some maxDepth =>
      if depthLevel > maxDepth then (0, q) else q.pushProjects projects depthLevel
  | none => q.pushProjects projects depthLevel

/-- Source `CloneQueue::take_one`: LIFO pop from `pending` (`Vec::pop`). -/
def CloneQueue.takeOne (q : CloneQueue) : Option CloneTask × CloneQueue :=
  (q.pending.getLast?, { q with pending := q.pending.dropLast })

/-- Source `CloneQueue::is_finished`: no pending tasks and no active workers. -/
def CloneQueue.isFinished (q : CloneQueue) (activeWorkers : Nat) : Bool :=
  q.pending.isEmpty && activeWorkers = 0

/-- Source `CloneQueue::drain_all`: remove and return every pending task. -/
def CloneQueue.drainAll (q : CloneQueue) : List CloneTask × CloneQueue :=
  (q.pending, { q with pending := [] })

/-- Source `CloneQueue::get_counts`: `(total_completed, total_discovered)`. -/
def CloneQueue.getCounts (q : CloneQueue) : Nat × Nat :=
  (q.totalCompleted, q.totalDiscovered)

/-- Source `CloneQueue::mark_completed`: bump `total_completed`, insert the task's
path into `completed`, then discover children via
`push_from_meta(task.target_path, task.depth_level + 1)`; the manifest
projects found inside the cloned tree are the `childProjects` parameter. -/
def CloneQueue.markCompleted (q : CloneQueue) (task : CloneTask)
    (childProjects : List MetaProject) : Nat × CloneQueue :=
  let q1 := { q with
    totalCompleted := q.totalCompleted + 1
    completed := insertSet q.completed task.targetPath }
  q1.pushFromMeta childProjects (task.depthLevel + 1)

/-- Source `CloneQueue::mark_failed`: bump `total_completed`, insert the task's path
into `failed`. -/
def CloneQueue.markFailed (q : CloneQueue) (task : CloneTask) : CloneQueue :=
  { q with
    totalCompleted := q.totalCompleted + 1
    failed := insertSet q.failed task.targetPath }

/-! ## Transition system over the clone queue

The queue together with the multiset of tasks taken by workers but not yet
marked (`inFlight`). `mark_completed`/`mark_failed` are only invoked by
`clone_single_repo` on a task obtained from `take_one`, which the step
relation enforces. -/

/-- Clone-queue state plus the tasks currently held by workers. -/
structure QueueSys where
  queue : CloneQueue
  inFlight : List CloneTask
deriving DecidableEq, Repr

/-- One observable clone-queue operation, as invoked by `update.rs` and the
clone worker pool. -/
inductive QStep : QueueSys → QueueSys → Prop
  | push (s : QueueSys) (t : CloneTask) :
      QStep s ⟨(s.queue.push t).2, s.inFlight⟩
  | pushFromMeta (s : QueueSys) (projects : List MetaProject) (depthLevel : Nat) :
      QStep s ⟨(s.queue.pushFromMeta projects depthLevel).2, s.inFlight⟩
  | takeOne (s : QueueSys) :
      QStep s ⟨(s.queue.takeOne).2,
        match (s.queue.takeOne).1 with
        | some t => t :: s.inFlight
        | none => s.inFlight⟩
  | markCompleted (s : QueueSys) (t : CloneTask) (childProjects : List MetaProject)
      (h : t ∈ s.inFlight) :
      QStep s ⟨(s.queue.markCompleted t childProjects).2, s.inFlight.erase t⟩
  | markFailed (s : QueueSys) (t : CloneTask) (h : t ∈ s.inFlight) :
      QStep s ⟨s.queue.markFailed t, s.inFlight.erase t⟩
  | drainAll (s : QueueSys) :
      QStep s ⟨(s.queue.drainAll).2, s.inFlight⟩

/-- The state of a fresh queue (`CloneQueue::new`) with no worker activity. -/
def initSys (gitDepth : Option String) (metaDepth : Option Nat) : QueueSys :=
  ⟨CloneQueue.new gitDepth metaDepth, []⟩

/-- Reachability by clone-queue operations from a fresh queue. -/
def QReachable (gitDepth : Option String) (metaDepth : Option Nat)
    (s : QueueSys) : Prop :=
  Relation.ReflTransGen QStep (initSys gitDepth metaDepth) s

/-! ### Helper lemmas about the queue operations -/

/-- The queue component of `pushProjects` is a plain fold of `push`,
irrespective of the running `added` count. -/
lemma pushProjects_queue (q : CloneQueue) (projects : List MetaProject) (d : Nat) :
    (q.pushProjects projects d).2 =
      projects.foldl
        (fun q' p => (q'.push ⟨p.name, p.repo, p.targetPath, d⟩).2) q := by
  suffices h : ∀ (projects : List MetaProject) (n : Nat) (q : CloneQueue),
      (projects.foldl
        (fun acc project =>
          let (added, q') := acc.2.push
            { name := project.name
              url := project.repo
              targetPath := project.targetPath
              depthLevel := d }
          (acc.1 + (if added then 1 else 0), q'))
        (n, q)).2 =
      projects.foldl
        (fun q' p => (q'.push ⟨p.name, p.repo, p.targetPath, d⟩).2) q by
    simpa [CloneQueue.pushProjects] using h projects 0 q
  intro projects
  induction projects with
  | nil => intro n q; rfl
  | cons p ps ih => intro n q; simp [List.foldl_cons, ih]

/-- A property preserved by every single `push` is preserved by a fold of
pushes. -/
lemma foldl_push_preserve (P : CloneQueue → Prop)
    (hstep : ∀ q t, P q → P (q.push t).2) :
    ∀ (projects : List MetaProject) (d : Nat) (q : CloneQueue),
      P q → P (projects.foldl
        (fun q' p => (q'.push ⟨p.name, p.repo, p.targetPath, d⟩).2) q) := by
  intro projects d
  induction projects with
  | nil => intro q h; exact h
  | cons p ps ih =>
      intro q h
      exact ih _ (hstep _ _ h)

/-- A property preserved by every single `push` is preserved by
`push_from_meta`. -/
lemma pushFromMeta_preserve (P : CloneQueue → Prop)
    (hstep : ∀ q t, P q → P (q.push t).2)
    (q : CloneQueue) (projects : List MetaProject) (d : Nat)
    (h : P q) : P (q.pushFromMeta projects d).2 := by
  unfold CloneQueue.pushFromMeta
  have hfold := foldl_push_preserve P hstep projects d q h
  cases hmd : q.metaDepth with
  | none => simpa [pushProjects_queue] using hfold
  | some maxDepth =>
      by_cases hd : d > maxDepth
      · simpa [hd] using h
      · simpa [hd, pushProjects_queue] using hfold

/-- Source `push` never introduces a duplicate target path into `pending`. -/
lemma push_pending_nodup (q : CloneQueue) (t : CloneTask)
    (h : (q.pending.map CloneTask.targetPath).Nodup) :
    ((q.push t).2.pending.map CloneTask.targetPath).Nodup := by
  unfold CloneQueue.push
  by_cases hc : t.targetPath ∈ q.completed
  · simpa [hc] using h
  · by_cases hp : q.pending.any (fun u => u.targetPath = t.targetPath)
    · simpa [hc, hp] using h
    · have hnotin : t.targetPath ∉ q.pending.map CloneTask.targetPath := by
        simp only [List.any_eq_true, decide_eq_true_eq] at hp
        simp only [List.mem_map]
        rintro ⟨u, hu, hup⟩
        exact hp ⟨u, hu, hup⟩
      simp only [hc, hp, if_false, if_true, Bool.false_eq_true]
      have : ∀ x ∈ q.pending, ¬x.targetPath = t.targetPath := by
        intro x hx hxeq
        exact hnotin (List.mem_map.mpr ⟨x, hx, hxeq⟩)
      simpa [List.nodup_append] using ⟨h, this⟩

/-- Along every reachable state, the pending list never holds two tasks with
the same target path. -/
lemma reachable_pending_nodup (gd : Option String) (md : Option Nat)
    (s : QueueSys) (h : QReachable gd md s) :
    (s.queue.pending.map CloneTask.targetPath).Nodup := by
  induction h with
  | refl => simp [initSys, CloneQueue.new]
  | tail _ hstep ih =>
      cases hstep with
      | push t => exact push_pending_nodup _ _ ih
      | pushFromMeta projects d =>
          exact pushFromMeta_preserve
            (fun q => (q.pending.map CloneTask.targetPath).Nodup)
            push_pending_nodup _ _ _ ih
      | takeOne =>
          exact ih.sublist (List.Sublist.map _ (List.dropLast_sublist _))
      | markCompleted t childProjects hin =>
          exact pushFromMeta_preserve
            (fun q => (q.pending.map CloneTask.targetPath).Nodup)
            push_pending_nodup _ _ _ ih
      | markFailed t hin => exact ih
      | drainAll => simp [CloneQueue.drainAll]

/-- Counter bookkeeping of a queue, relative to the number of in-flight
tasks: `done` dominates the two result sets, and `discovered` dominates
everything still owed to `done`. -/
def countersInv (q : CloneQueue) (k : Nat) : Prop :=
  q.completed.length + q.failed.length ≤ q.totalCompleted ∧
  q.totalCompleted + k + q.pending.length ≤ q.totalDiscovered

lemma insertSet_length_le (s : List String) (x : String) :
    (insertSet s x).length ≤ s.length + 1 := by
  unfold insertSet
  by_cases h : x ∈ s <;> simp [h]

lemma push_countersInv (k : Nat) (q : CloneQueue) (t : CloneTask)
    (h : countersInv q k) : countersInv (q.push t).2 k := by
  obtain ⟨h1, h2⟩ := h
  unfold CloneQueue.push
  by_cases hc : t.targetPath ∈ q.completed
  · simpa [hc, countersInv] using ⟨h1, h2⟩
  · by_cases hp : q.pending.any (fun u => u.targetPath = t.targetPath)
    · simpa [hc, hp, countersInv] using ⟨h1, h2⟩
    · simp only [hc, hp, if_false, if_true, Bool.false_eq_true]
      refine ⟨h1, ?_⟩
      simp only [List.length_append, List.length_cons, List.length_nil]
      omega

lemma takeOne_countersInv (q : CloneQueue) (fl : List CloneTask)
    (h : countersInv q fl.length) :
    countersInv (q.takeOne).2
      (match (q.takeOne).1 with
        | some t => t :: fl
        | none => fl).length := by
  obtain ⟨h1, h2⟩ := h
  cases hp : q.pending with
  | nil =>
      refine ⟨h1, ?_⟩
      simp only [CloneQueue.takeOne, hp, List.getLast?_nil, List.dropLast_nil]
      rw [hp] at h2
      simpa using h2
  | cons a l =>
      simp only [CloneQueue.takeOne, hp]
      have hlast : (a :: l).getLast? = some ((a :: l).getLast (List.cons_ne_nil a l)) :=
        List.getLast?_eq_getLast _ _
      rw [hlast]
      refine ⟨h1, ?_⟩
      show q.totalCompleted + (fl.length + 1) + (a :: l).dropLast.length ≤ q.totalDiscovered
      rw [hp] at h2
      simp only [List.length_cons] at h2
      simp only [List.length_dropLast, List.length_cons]
      omega

lemma markCompleted_countersInv (q : CloneQueue) (t : CloneTask)
    (childProjects : List MetaProject) (fl : List CloneTask) (hin : t ∈ fl)
    (h : countersInv q fl.length) :
    countersInv (q.markCompleted t childProjects).2 (fl.erase t).length := by
  obtain ⟨h1, h2⟩ := h
  have hk := List.length_erase_of_mem hin
  have hpos := List.length_pos_of_mem hin
  have hins := insertSet_length_le q.completed t.targetPath
  unfold CloneQueue.markCompleted
  refine pushFromMeta_preserve (fun q' => countersInv q' (fl.erase t).length)
    (push_countersInv _) _ _ _ ⟨?_, ?_⟩
  · show (insertSet q.completed t.targetPath).length + q.failed.length ≤
      q.totalCompleted + 1
    omega
  · show q.totalCompleted + 1 + (fl.erase t).length + q.pending.length ≤
      q.totalDiscovered
    omega

lemma markFailed_countersInv (q : CloneQueue) (t : CloneTask)
    (fl : List CloneTask) (hin : t ∈ fl) (h : countersInv q fl.length) :
    countersInv (q.markFailed t) (fl.erase t).length := by
  obtain ⟨h1, h2⟩ := h
  have hk := List.length_erase_of_mem hin
  have hpos := List.length_pos_of_mem hin
  have hins := insertSet_length_le q.failed t.targetPath
  constructor
  · show q.completed.length + (insertSet q.failed t.targetPath).length ≤
      q.totalCompleted + 1
    omega
  · show q.totalCompleted + 1 + (fl.erase t).length + q.pending.length ≤
      q.totalDiscovered
    omega

lemma reachable_countersInv (gd : Option String) (md : Option Nat)
    (s : QueueSys) (h : QReachable gd md s) :
    countersInv s.queue s.inFlight.length := by
  induction h with
  | refl => simp [initSys, CloneQueue.new, countersInv]
  | tail _ hstep ih =>
      cases hstep with
      | push t => exact push_countersInv _ _ t ih
      | pushFromMeta projects d =>
          exact pushFromMeta_preserve (fun q => countersInv q _)
            (push_countersInv _) _ _ _ ih
      | takeOne => exact takeOne_countersInv _ _ ih
      | markCompleted t childProjects hin =>
          exact markCompleted_countersInv _ _ _ _ hin ih
      | markFailed t hin =>
          exact markFailed_countersInv _ _ _ hin ih
      | drainAll =>
          obtain ⟨h1, h2⟩ := ih
          constructor
          · simpa [CloneQueue.drainAll] using h1
          · simp only [CloneQueue.drainAll, List.length_nil]
            omega

/-! ### A concrete run of the queue: failure followed by re-discovery

The path `/ws/a` fails to clone; a later `push` (e.g. via a second
`push_from_meta` seeding) re-enqueues it, because `push` only checks the
`completed` set and the pending list, never the `failed` set. The same task
then fails a second time, inflating `done` past `|completed| + |failed|`. -/

/-- A sample clone task. -/
def taskA : CloneTask :=
  { name := "repo-a", url := "git@example.com:org/a.git"
    targetPath := "/ws/a", depthLevel := 0 }

/-- State after `push taskA`. -/
def raceS1 : QueueSys :=
  ⟨⟨[taskA], [], [], 1, 0, none, none⟩, []⟩

/-- State after a worker's `take_one`. -/
def raceS2 : QueueSys :=
  ⟨⟨[], [], [], 1, 0, none, none⟩, [taskA]⟩

/-- State after `mark_failed taskA`. -/
def raceS3 : QueueSys :=
  ⟨⟨[], [], ["/ws/a"], 1, 1, none, none⟩, []⟩

/-- State after re-pushing `taskA`: its path is now pending *and* failed. -/
def raceS4 : QueueSys :=
  ⟨⟨[taskA], [], ["/ws/a"], 2, 1, none, none⟩, []⟩

/-- State after the second `take_one`. -/
def raceS5 : QueueSys :=
  ⟨⟨[], [], ["/ws/a"], 2, 1, none, none⟩, [taskA]⟩

/-- State after the second `mark_failed taskA`: `done = 2` but
`|completed| + |failed| = 1`. -/
def raceS6 : QueueSys :=
  ⟨⟨[], [], ["/ws/a"], 2, 2, none, none⟩, []⟩

lemma raceS4_reachable : QReachable none none raceS4 := by
  have h1 : Relation.ReflTransGen QStep (initSys none none) raceS1 :=
    Relation.ReflTransGen.single (QStep.push (initSys none none) taskA)
  have h2 : Relation.ReflTransGen QStep (initSys none none) raceS2 :=
    h1.tail (QStep.takeOne raceS1)
  have h3 : Relation.ReflTransGen QStep (initSys none none) raceS3 :=
    h2.tail (QStep.markFailed raceS2 taskA (by decide))
  exact h3.tail (QStep.push raceS3 taskA)

lemma raceS6_reachable : QReachable none none raceS6 := by
  have h5 : Relation.ReflTransGen QStep (initSys none none) raceS5 :=
    raceS4_reachable.tail (QStep.takeOne raceS4)
  exact h5.tail (QStep.markFailed raceS5 taskA (by decide))

/-- Claim C1, counterexample: The claim "every target path is present in at
most one of the pending list, the completed set and the failed set at each
intermediate state" is false: after the operation sequence
`push taskA; take_one; mark_failed taskA; push taskA` (all permitted by
`CloneQueue::push`, which checks only `completed` and `pending`), the path
`/ws/a` is simultaneously held by a pending task and a member of the failed
set. -/
theorem clone_queue_disjointness_counterexample :
    QReachable none none raceS4 ∧
    raceS4.queue.pending.any (fun t => t.targetPath = "/ws/a") = true ∧
    "/ws/a" ∈ raceS4.queue.failed :=
  ⟨raceS4_reachable, by decide, by decide⟩

/-- Claim C1, amended: For every sequence of clone-queue operations starting
from a new queue, the pending list never contains two tasks with the same
target path (and `push` refuses paths already pending or completed); a path
may however appear simultaneously in `pending` and `failed`, or in
`completed` and `failed`, because `push` never consults the failed set. -/
theorem clone_queue_pending_paths_unique (gd : Option String) (md : Option Nat)
    (s : QueueSys) (h : QReachable gd md s) :
    (s.queue.pending.map CloneTask.targetPath).Nodup :=
  reachable_pending_nodup gd md s h

/-- Witness for `clone_queue_pending_paths_unique` at the state reached by
`push; take_one; mark_failed; push`. -/
theorem clone_queue_pending_paths_unique_witness :
    (raceS4.queue.pending.map CloneTask.targetPath).Nodup :=
  clone_queue_pending_paths_unique none none raceS4 raceS4_reachable

/-- Claim C3, counterexample: The claim `done = |completed| + |failed|` at
every reachable state is false: after the failed task `/ws/a` is re-pushed
and fails a second time, `done = 2` while
`|completed| + |failed| = 0 + 1 = 1`. -/
theorem clone_queue_counters_counterexample :
    QReachable none none raceS6 ∧
    raceS6.queue.totalCompleted = 2 ∧
    raceS6.queue.completed.length + raceS6.queue.failed.length = 1 :=
  ⟨raceS6_reachable, by decide, by decide⟩

/-- Claim C3, amended: At every state reachable by clone-queue operations, the
done counter is at least `|completed| + |failed|` (equality can fail when a
re-discovered path is marked into the same set twice), and the discovered
counter is at least the done counter. -/
theorem clone_queue_counters_conservation (gd : Option String) (md : Option Nat)
    (s : QueueSys) (h : QReachable gd md s) :
    s.queue.completed.length + s.queue.failed.length ≤ s.queue.totalCompleted ∧
    s.queue.totalCompleted ≤ s.queue.totalDiscovered := by
  obtain ⟨h1, h2⟩ := reachable_countersInv gd md s h
  exact ⟨h1, by omega⟩

/-- Witness for `clone_queue_counters_conservation` at the double-failure
state: `0 + 1 ≤ 2` and `2 ≤ 2`. -/
theorem clone_queue_counters_conservation_witness :
    raceS6.queue.completed.length + raceS6.queue.failed.length ≤
      raceS6.queue.totalCompleted ∧
    raceS6.queue.totalCompleted ≤ raceS6.queue.totalDiscovered :=
  clone_queue_counters_conservation none none raceS6 raceS6_reachable

/-- Claim C9: `drain_all` removes and returns exactly the pending tasks and
leaves the completed set, the failed set, and both progress counters (hence
`get_counts`) unchanged, so the dry-run preview in `execute_git_update` does
not alter any progress count. -/
theorem drain_all_returns_pending_and_preserves_counts (q : CloneQueue) :
    (q.drainAll).1 = q.pending ∧
    (q.drainAll).2.pending = [] ∧
    (q.drainAll).2.completed = q.completed ∧
    (q.drainAll).2.failed = q.failed ∧
    (q.drainAll).2.totalDiscovered = q.totalDiscovered ∧
    (q.drainAll).2.totalCompleted = q.totalCompleted ∧
    (q.drainAll).2.getCounts = q.getCounts :=
  ⟨rfl, rfl, rfl, rfl, rfl, rfl, rfl⟩

/-! ## The clone worker pool (`clone_with_queue`, `src/clone_queue.rs`)

Each spawned worker runs the loop at lines 200–243 of `clone_queue.rs`:

```
loop {
    let task = queue.take_one();            // atomic pop under the pending mutex
    match task {
        Some(task) => {
            active.fetch_add(1, SeqCst);    // increment AFTER the pop
            clone_single_repo(...);         // may mark and push children
            active.fetch_sub(1, SeqCst);
            ... signal ...
        }
        None => {
            if queue.is_finished(&active) { break; }  // pending empty ∧ active == 0
            ... bounded wait ...
        }
    }
}
```

The interleaving model below gives each worker a program counter whose
phases are the atomic sections of this loop, in the source's order: the
pop happens in phase `loopStart`, and the `active` increment is a separate
later step out of phase `gotTask`. -/

/-- Program counter of one worker of `clone_with_queue`. -/
inductive WorkerPhase
  /-- Top of the loop, about to call `take_one`. -/
  | loopStart
  /-- Phase where `take_one` returned `Some(task)`; the `active.fetch_add(1)` has not
  yet executed. -/
  | gotTask (t : CloneTask)
  /-- Phase where `active` was incremented; executing `clone_single_repo`. -/
  | cloning (t : CloneTask)
  /-- Phase where `take_one` returned `None`; about to evaluate `is_finished`. -/
  | noTask
  /-- The loop was exited via `break`. -/
  | terminated
deriving DecidableEq, Repr

/-- Shared state of the worker pool: the queue, the `active_workers`
atomic, and each worker's phase. -/
structure PoolState where
  queue : CloneQueue
  active : Nat
  workers : List WorkerPhase
deriving DecidableEq, Repr

/-- Result of one `clone_single_repo` call: completion (with discovered
child projects) or failure. -/
inductive CloneOutcome
  | completed (childProjects : List MetaProject)
  | failed
deriving Repr

/-- One atomic transition of the worker pool, as scheduled by the OS. -/
inductive PStep : PoolState → PoolState → Prop
  /-- Worker `i` calls `take_one` and receives a task. -/
  | takeSome (s : PoolState) (i : Nat) (t : CloneTask)
      (hw : s.workers.get? i = some .loopStart)
      (ht : (s.queue.takeOne).1 = some t) :
      PStep s ⟨(s.queue.takeOne).2, s.active, s.workers.set i (.gotTask t)⟩
  /-- Worker `i` calls `take_one` on an empty pending list. -/
  | takeNone (s : PoolState) (i : Nat)
      (hw : s.workers.get? i = some .loopStart)
      (ht : (s.queue.takeOne).1 = none) :
      PStep s ⟨(s.queue.takeOne).2, s.active, s.workers.set i .noTask⟩
  /-- Worker `i` executes `active.fetch_add(1)` (only after its pop hit). -/
  | incActive (s : PoolState) (i : Nat) (t : CloneTask)
      (hw : s.workers.get? i = some (.gotTask t)) :
      PStep s ⟨s.queue, s.active + 1, s.workers.set i (.cloning t)⟩
  /-- Worker `i` finishes `clone_single_repo` (marking the task and pushing
  any discovered children) and executes `active.fetch_sub(1)`. -/
  | finishTask (s : PoolState) (i : Nat) (t : CloneTask) (outcome : CloneOutcome)
      (hw : s.workers.get? i = some (.cloning t)) :
      PStep s ⟨(match outcome with
                | .completed childProjects => (s.queue.markCompleted t childProjects).2
                | .failed => s.queue.markFailed t),
               s.active - 1, s.workers.set i .loopStart⟩
  /-- Worker `i` evaluates `is_finished` and it holds: `break`. -/
  | checkFinished (s : PoolState) (i : Nat)
      (hw : s.workers.get? i = some .noTask)
      (hf : s.queue.isFinished s.active = true) :
      PStep s ⟨s.queue, s.active, s.workers.set i .terminated⟩
  /-- Worker `i` evaluates `is_finished`, it fails, and the bounded wait
  returns to the top of the loop. -/
  | checkNotFinished (s : PoolState) (i : Nat)
      (hw : s.workers.get? i = some .noTask)
      (hf : s.queue.isFinished s.active = false) :
      PStep s ⟨s.queue, s.active, s.workers.set i .loopStart⟩

/-- Initial pool state: a seeded queue, `active_workers == 0`, and
`parallelism` workers at the top of their loops. -/
def poolInit (q : CloneQueue) (parallelism : Nat) : PoolState :=
  ⟨q, 0, List.replicate parallelism .loopStart⟩

/-- Reachability of the worker pool under some OS schedule. -/
def PoolReachable (q : CloneQueue) (parallelism : Nat) (s : PoolState) : Prop :=
  Relation.ReflTransGen PStep (poolInit q parallelism) s

/-- A queue seeded with the single task `/ws/a`. -/
def seededQueue : CloneQueue :=
  ⟨[taskA], [], [], 1, 0, none, none⟩

/-- Pool state after worker 0 pops the last task (before its increment). -/
def racePool1 : PoolState :=
  ⟨⟨[], [], [], 1, 0, none, none⟩, 0, [.gotTask taskA, .loopStart]⟩

/-- Pool state after worker 1's `take_one` misses. -/
def racePool2 : PoolState :=
  ⟨⟨[], [], [], 1, 0, none, none⟩, 0, [.gotTask taskA, .noTask]⟩

/-- Pool state after worker 1's termination check succeeds: worker 1 has
exited although worker 0 holds the popped, unprocessed task. -/
def racePoolBad : PoolState :=
  ⟨⟨[], [], [], 1, 0, none, none⟩, 0, [.gotTask taskA, .terminated]⟩

/-- Claim C2: The claim is violated by the code: each worker increments the
active-workers counter only *after* `take_one` returns a task (the
`fetch_add` is inside the `Some` arm), so with two workers and one pending
task there is a schedule in which worker 0 pops the last task, and worker
1's evaluation of the termination predicate then observes an empty pending
list and `active_workers == 0` and terminates — exactly the race the
specification says must be prevented. In the final state worker 1 has
exited while worker 0 still holds the un-processed task and the counter
never registered it. -/
theorem clone_worker_termination_race :
    PoolReachable seededQueue 2 racePoolBad ∧
    racePoolBad.workers = [WorkerPhase.gotTask taskA, WorkerPhase.terminated] ∧
    racePoolBad.active = 0 ∧
    racePoolBad.queue.pending = [] := by
  refine ⟨?_, rfl, rfl, rfl⟩
  have h1 : Relation.ReflTransGen PStep (poolInit seededQueue 2) racePool1 :=
    Relation.ReflTransGen.single
      (PStep.takeSome (poolInit seededQueue 2) 0 taskA (by decide) (by decide))
  have h2 : Relation.ReflTransGen PStep (poolInit seededQueue 2) racePool2 :=
    h1.tail (PStep.takeNone racePool1 1 (by decide) (by decide))
  exact h2.tail (PStep.checkFinished racePool2 1 (by decide) (by decide))

/-! ## The commit coordinator (`src/commit.rs`)

`execute_editor_commit` builds a template with one section per staged repo
and `parse_multi_commit_file` parses the edited file back into
`(repo, message)` pairs. String primitives of Rust (`str::lines`,
`starts_with`, `ends_with`, `trim`, `trim_start_matches`,
`trim_end_matches`, `[String]::join`) are embedded below over `String.data`;
`trim` uses ASCII whitespace, which coincides with Rust's Unicode notion on
every character these templates produce. -/

/-- A repo with staged changes as collected by `execute_git_commit`:
`(name, path, staged files)`. -/
structure StagedRepo where
  name : String
  path : String
  files : List String
deriving DecidableEq, Repr

/-- Rust `str::lines`, splitting part: cut at `'\n'`, no trailing empty
line. The accumulator holds the current line reversed. -/
def linesAux : List Char → List Char → List (List Char)
  | [], cur => if cur.isEmpty then [] else [cur.reverse]
  | c :: rest, cur =>
      if c = '\n' then cur.reverse :: linesAux rest []
      else linesAux rest (c :: cur)

/-- Rust `str::lines` also strips one trailing `'\r'` from each line. -/
def stripCR (l : List Char) : List Char :=
  if l.getLast? = some '\r' then l.dropLast else l

/-- Rust `str::lines`. -/
def rustLines (s : String) : List String :=
  (linesAux s.data []).map fun l => String.mk (stripCR l)

/-- Rust `str::starts_with(&str)`. -/
def rustStartsWith (s pre : String) : Bool :=
  pre.data.isPrefixOf s.data

/-- Rust `str::ends_with(&str)`. -/
def rustEndsWith (s suf : String) : Bool :=
  suf.data.isSuffixOf s.data

/-- Rust `str::starts_with(char)`. -/
def rustStartsWithChar (s : String) (c : Char) : Bool :=
  match s.data with
  | [] => false
  | d :: _ => d = c

/-- Rust `.trim_start_matches('=').trim_end_matches('=')` as applied to a
section header line. -/
def trimEqMatches (l : List Char) : List Char :=
  ((l.dropWhile (· = '=')).reverse.dropWhile (· = '=')).reverse

/-- Rust `str::trim`. -/
def rustTrim (s : String) : String :=
  String.mk
    (((s.data.dropWhile Char.isWhitespace).reverse.dropWhile
      Char.isWhitespace).reverse)

/-- Rust `[String]::join(", ")` as used for the staged-file list. -/
def joinComma : List String → String
  | [] => ""
  | f :: rest => rest.foldl (fun acc g => acc ++ ", " ++ g) f

/-- State of the `for line in content.lines()` loop of
`parse_multi_commit_file`. -/
structure ParseState where
  commits : List (String × String)
  currentRepo : Option String
  currentMessage : String
deriving DecidableEq, Repr

/-- Closing a section: record `(repo, trimmed message)` unless the trimmed
message is empty (`src/commit.rs:264-269` and `287-292`). -/
def flushSection (commits : List (String × String)) (repo : Option String)
    (message : String) : List (String × String) :=
  match repo with
  | some r =>
      let msg := rustTrim message
      if msg ≠ "" then commits ++ [(r, msg)] else commits
  | none => commits

/-- The repo name parsed out of a section header line. -/
def headerName (line : String) : String :=
  rustTrim (String.mk (trimEqMatches line.data))

/-- One iteration of the line loop of `parse_multi_commit_file`. -/
def parseLine (st : ParseState) (line : String) : ParseState :=
  if rustStartsWith line "==========" && rustEndsWith line "==========" then
    { commits := flushSection st.commits st.currentRepo st.currentMessage
      currentRepo := some (headerName line)
      currentMessage := "" }
  else if !(rustStartsWithChar line '#') && st.currentRepo.isSome then
    { st with currentMessage := st.currentMessage ++ line ++ "\n" }
  else
    st

/-- Source `parse_multi_commit_file` (`src/commit.rs:257-295`). -/
def parse_multi_commit_file (content : String) : List (String × String) :=
  let st := (rustLines content).foldl parseLine ⟨[], none, ""⟩
  flushSection st.commits st.currentRepo st.currentMessage

/-- The fixed template preamble written by `execute_editor_commit`. -/
def templatePreamble : String :=
  "# Meta Multi-Commit\n" ++
  "# Each section represents one repository.\n" ++
  "# Edit the message below each header.\n" ++
  "# Delete a section entirely or leave message empty to skip that repo.\n" ++
  "#\n\n"

/-- The per-repo section appended to the template by
`execute_editor_commit` (`src/commit.rs:160-167`). -/
def sectionText (r : StagedRepo) : String :=
  "========== " ++ r.name ++ " ==========\n" ++
  ("# " ++ toString r.files.length ++ " file(s) staged: " ++
    joinComma r.files ++ "\n") ++
  "\n" ++
  "# Enter commit message above this line\n\n"

/-- The full commit template for the given staged repos. -/
def commitTemplate (repos : List StagedRepo) : String :=
  repos.foldl (fun acc r => acc ++ sectionText r) templatePreamble

/-- A staged repo whose single staged file name contains a newline. -/
def newlineFileRepo : StagedRepo :=
  { name := "repo-a", path := "/ws/repo-a", files := ["f\nx"] }

/-! ### Line structure of the generated template

The template is a concatenation of newline-terminated chunks. When no repo
name and no staged file name contains a newline, `rustLines` recovers
exactly those chunks. -/

/-- Concatenation of newline-terminated chunks. -/
def chunkJoin : List (List Char) → List Char
  | [] => []
  | c :: cs => c ++ '\n' :: chunkJoin cs

/-- The chunks contributed by the template preamble. -/
def preambleChunks : List (List Char) :=
  ["# Meta Multi-Commit".data,
   "# Each section represents one repository.".data,
   "# Edit the message below each header.".data,
   "# Delete a section entirely or leave message empty to skip that repo.".data,
   "#".data,
   []]

/-- The chunks contributed by one repo section. -/
def sectionChunks (r : StagedRepo) : List (List Char) :=
  [("========== " ++ r.name ++ " ==========").data,
   ("# " ++ toString r.files.length ++ " file(s) staged: " ++
      joinComma r.files).data,
   [],
   "# Enter commit message above this line".data,
   []]

lemma chunkJoin_append (xs ys : List (List Char)) :
    chunkJoin (xs ++ ys) = chunkJoin xs ++ chunkJoin ys := by
  induction xs with
  | nil => rfl
  | cons c cs ih => simp [chunkJoin, ih]

lemma sectionText_data (r : StagedRepo) :
    (sectionText r).data = chunkJoin (sectionChunks r) := by
  have h1 : (" ==========\n" : String).data =
      (" ==========" : String).data ++ ['\n'] := by decide
  have h2 : ("\n" : String).data = ['\n'] := by decide
  have h3 : ("# Enter commit message above this line\n\n" : String).data =
      ("# Enter commit message above this line" : String).data ++
        ['\n'] ++ ['\n'] := by decide
  simp only [sectionText, sectionChunks, chunkJoin, String.data_append,
    h1, h2, h3, List.append_assoc, List.cons_append, List.nil_append,
    List.append_nil, List.singleton_append]

set_option maxRecDepth 4000 in
lemma templatePreamble_data :
    templatePreamble.data = chunkJoin preambleChunks := by decide

lemma commitTemplate_data (repos : List StagedRepo) :
    (commitTemplate repos).data =
      chunkJoin (preambleChunks ++ repos.flatMap sectionChunks) := by
  suffices h : ∀ (repos : List StagedRepo) (acc : String),
      (repos.foldl (fun a r => a ++ sectionText r) acc).data =
        acc.data ++ chunkJoin (repos.flatMap sectionChunks) by
    rw [commitTemplate, h, templatePreamble_data, chunkJoin_append]
  intro repos
  induction repos with
  | nil => intro acc; simp [chunkJoin]
  | cons r rs ih =>
      intro acc
      simp only [List.foldl_cons, ih, String.data_append, List.flatMap_cons,
        chunkJoin_append, sectionText_data, List.append_assoc]

/-- Splitting off one newline-free chunk. -/
lemma linesAux_chunk (c : List Char) (h : '\n' ∉ c) (rest cur : List Char) :
    linesAux (c ++ '\n' :: rest) cur = (cur.reverse ++ c) :: linesAux rest [] := by
  induction c generalizing cur with
  | nil => simp [linesAux]
  | cons a as ih =>
      have ha : ¬ a = '\n' := fun h' => h (h' ▸ List.mem_cons_self a as)
      have h' : '\n' ∉ as := fun hm => h (List.mem_cons_of_mem _ hm)
      simp only [List.cons_append, linesAux, ha, if_false, List.append_eq]
      rw [ih h']
      simp

lemma linesAux_chunkJoin (chunks : List (List Char))
    (h : ∀ c ∈ chunks, '\n' ∉ c) :
    linesAux (chunkJoin chunks) [] = chunks := by
  induction chunks with
  | nil => rfl
  | cons c cs ih =>
      rw [chunkJoin, linesAux_chunk c (h c (List.mem_cons_self c cs)) _ []]
      simp only [List.reverse_nil, List.nil_append]
      rw [ih (fun d hd => h d (List.mem_cons_of_mem _ hd))]

lemma digitChar_ne_newline (n : Nat) : Nat.digitChar n ≠ '\n' := by
  rcases Nat.lt_or_ge n 16 with h | h
  · interval_cases n <;> decide
  · have h0 : n ≠ 0 := by omega
    have h1 : n ≠ 1 := by omega
    have h2 : n ≠ 2 := by omega
    have h3 : n ≠ 3 := by omega
    have h4 : n ≠ 4 := by omega
    have h5 : n ≠ 5 := by omega
    have h6 : n ≠ 6 := by omega
    have h7 : n ≠ 7 := by omega
    have h8 : n ≠ 8 := by omega
    have h9 : n ≠ 9 := by omega
    have h10 : n ≠ 10 := by omega
    have h11 : n ≠ 11 := by omega
    have h12 : n ≠ 12 := by omega
    have h13 : n ≠ 13 := by omega
    have h14 : n ≠ 14 := by omega
    have h15 : n ≠ 15 := by omega
    simp only [Nat.digitChar, h0, h1, h2, h3, h4, h5, h6, h7, h8, h9, h10,
      h11, h12, h13, h14, h15, if_false]
    decide

lemma toDigitsCore_no_newline (b fuel n : Nat) (ds : List Char)
    (h : '\n' ∉ ds) : '\n' ∉ Nat.toDigitsCore b fuel n ds := by
  induction fuel generalizing n ds with
  | zero => simpa [Nat.toDigitsCore] using h
  | succ fuel ih =>
      rw [Nat.toDigitsCore]
      split
      · intro hmem
        rcases List.mem_cons.mp hmem with h' | h'
        · exact digitChar_ne_newline _ h'.symm
        · exact h h'
      · refine ih _ _ ?_
        intro hmem
        rcases List.mem_cons.mp hmem with h' | h'
        · exact digitChar_ne_newline _ h'.symm
        · exact h h'

/-- The decimal rendering of a `Nat` never contains a newline. -/
lemma natToString_no_newline (n : Nat) : '\n' ∉ (toString n).data :=
  toDigitsCore_no_newline 10 (n + 1) n [] (by simp)

lemma joinComma_no_newline (files : List String)
    (h : ∀ f ∈ files, '\n' ∉ f.data) : '\n' ∉ (joinComma files).data := by
  cases files with
  | nil => simp [joinComma]
  | cons f rest =>
      simp only [joinComma]
      have hstep : ∀ (rest : List String) (acc : String), '\n' ∉ acc.data →
          (∀ f ∈ rest, '\n' ∉ f.data) →
          '\n' ∉ (rest.foldl (fun acc g => acc ++ ", " ++ g) acc).data := by
        intro rest
        induction rest with
        | nil => intro acc hacc _; simpa using hacc
        | cons g gs ih =>
            intro acc hacc hrest
            refine ih _ ?_ (fun f hf => hrest f (List.mem_cons_of_mem _ hf))
            simp only [String.data_append, List.mem_append]
            rintro ((hmem | hmem) | hmem)
            · exact hacc hmem
            · revert hmem; decide
            · exact hrest g (List.mem_cons_self g gs) hmem
      exact hstep rest f (h f (List.mem_cons_self f rest))
        (fun g hg => h g (List.mem_cons_of_mem _ hg))

set_option maxRecDepth 4000 in
/-- No chunk of the template contains a newline, when no repo name and no
staged file name does. -/
lemma templateChunks_no_newline (repos : List StagedRepo)
    (h : ∀ r ∈ repos, '\n' ∉ r.name.data ∧ ∀ f ∈ r.files, '\n' ∉ f.data) :
    ∀ c ∈ preambleChunks ++ repos.flatMap sectionChunks, '\n' ∉ c := by
  intro c hc
  rcases List.mem_append.mp hc with hpre | hsec
  · simp only [preambleChunks, List.mem_cons, List.not_mem_nil, or_false] at hpre
    rcases hpre with rfl | rfl | rfl | rfl | rfl | rfl <;> decide
  · rcases List.mem_flatMap.mp hsec with ⟨r, hr, hcr⟩
    obtain ⟨hname, hfiles⟩ := h r hr
    simp only [sectionChunks, List.mem_cons, List.not_mem_nil, or_false] at hcr
    rcases hcr with rfl | rfl | rfl | rfl | rfl
    · simp only [String.data_append, List.mem_append]
      rintro ((hm | hm) | hm)
      · revert hm; decide
      · exact hname hm
      · revert hm; decide
    · simp only [String.data_append, List.mem_append]
      rintro (((hm | hm) | hm) | hm)
      · revert hm; decide
      · exact natToString_no_newline _ hm
      · revert hm; decide
      · exact joinComma_no_newline r.files hfiles hm
    · simp
    · decide
    · simp

/-- The parsed lines of a chunk list. -/
def chunkLines (chunks : List (List Char)) : List String :=
  chunks.map fun l => String.mk (stripCR l)

lemma rustLines_commitTemplate (repos : List StagedRepo)
    (h : ∀ r ∈ repos, '\n' ∉ r.name.data ∧ ∀ f ∈ r.files, '\n' ∉ f.data) :
    rustLines (commitTemplate repos) =
      chunkLines preambleChunks ++ repos.flatMap (fun r => chunkLines (sectionChunks r)) := by
  unfold rustLines
  rw [commitTemplate_data, linesAux_chunkJoin _ (templateChunks_no_newline repos h)]
  simp [chunkLines, List.map_append, List.map_flatMap]

/-! ### Behaviour of `parse_multi_commit_file` on the template lines -/

/-- A message accumulated from blank lines only. -/
def onlyNewlines (s : String) : Prop := ∀ c ∈ s.data, c = '\n'

lemma rustTrim_onlyNewlines (s : String) (h : onlyNewlines s) :
    rustTrim s = "" := by
  unfold rustTrim
  have hd : s.data.dropWhile Char.isWhitespace = [] := by
    rw [List.dropWhile_eq_nil_iff]
    intro c hc
    rw [h c hc]
    decide
  rw [hd]
  rfl

lemma flushSection_onlyNewlines (commits : List (String × String))
    (repo : Option String) (msg : String) (h : onlyNewlines msg) :
    flushSection commits repo msg = commits := by
  cases repo with
  | none => rfl
  | some r => simp [flushSection, rustTrim_onlyNewlines _ h]

lemma headerChunk_stripCR (name : String) :
    stripCR ("========== " ++ name ++ " ==========").data =
      ("========== " ++ name ++ " ==========").data := by
  unfold stripCR
  have hlast : ("========== " ++ name ++ " ==========").data.getLast? = some '=' := by
    rw [String.data_append, List.getLast?_append_of_ne_nil _ (by decide)]
    decide
  rw [hlast]
  simp

lemma headerLine_starts (name : String) :
    rustStartsWith ("========== " ++ name ++ " ==========") "==========" = true := by
  unfold rustStartsWith
  rw [List.isPrefixOf_iff_prefix]
  simp only [String.data_append]
  have hp : ("==========" : String).data <+: ("========== " : String).data :=
    ⟨[' '], by decide⟩
  exact List.IsPrefix.trans hp
    (List.IsPrefix.trans (List.prefix_append _ _) (List.prefix_append _ _))

lemma headerLine_ends (name : String) :
    rustEndsWith ("========== " ++ name ++ " ==========") "==========" = true := by
  unfold rustEndsWith
  rw [List.isSuffixOf_iff_suffix]
  simp only [String.data_append]
  have hs : ("==========" : String).data <:+ (" ==========" : String).data :=
    ⟨[' '], by decide⟩
  exact List.IsSuffix.trans hs (List.suffix_append _ _)

/-- A generated section header line is recognised as a header, whatever the
repo name. -/
lemma parseLine_header (st : ParseState) (name : String) :
    parseLine st (String.mk (stripCR ("========== " ++ name ++ " ==========").data)) =
      ⟨flushSection st.commits st.currentRepo st.currentMessage,
       some (headerName ("========== " ++ name ++ " ==========")), ""⟩ := by
  rw [headerChunk_stripCR]
  show parseLine st ("========== " ++ name ++ " ==========") = _
  unfold parseLine
  rw [headerLine_starts, headerLine_ends]
  simp

lemma stripCR_hash (rest : List Char) :
    ∃ t, stripCR ('#' :: rest) = '#' :: t := by
  cases rest with
  | nil => exact ⟨[], by decide⟩
  | cons b t =>
      unfold stripCR
      by_cases hg : ('#' :: b :: t).getLast? = some '\r'
      · rw [if_pos hg]
        exact ⟨(b :: t).dropLast, rfl⟩
      · rw [if_neg hg]
        exact ⟨b :: t, rfl⟩

/-- A line starting with `'#'` is skipped by the parser. -/
lemma parseLine_comment (st : ParseState) (t : List Char) :
    parseLine st (String.mk ('#' :: t)) = st := by
  have h10 : ("==========" : String).data = '=' :: ("=========" : String).data := by
    decide
  have hsw : rustStartsWith (String.mk ('#' :: t)) "==========" = false := by
    by_contra hb
    rw [Bool.not_eq_false] at hb
    unfold rustStartsWith at hb
    obtain ⟨u, hu⟩ := List.isPrefixOf_iff_prefix.mp hb
    rw [h10] at hu
    simp only [List.cons_append] at hu
    injection hu with h1 _
    exact absurd h1 (by decide)
  have hch : rustStartsWithChar (String.mk ('#' :: t)) '#' = true := by
    unfold rustStartsWithChar
    simp
  unfold parseLine
  rw [hsw]
  simp [hch]

/-- A blank line appends a bare newline to the message of the open
section. -/
lemma parseLine_blank (st : ParseState) (hr : st.currentRepo.isSome) :
    parseLine st "" =
      { st with currentMessage := st.currentMessage ++ "" ++ "\n" } := by
  unfold parseLine
  have h1 : (rustStartsWith "" "==========" && rustEndsWith "" "==========") = false := by
    decide
  have h2 : rustStartsWithChar "" '#' = false := by decide
  rw [h1]
  simp [h2, hr]

lemma parseLine_blank_some (commits : List (String × String)) (repo msg : String) :
    parseLine ⟨commits, some repo, msg⟩ "" =
      ⟨commits, some repo, msg ++ "" ++ "\n"⟩ :=
  parseLine_blank _ rfl

/-- Folding the parser over one generated section flushes nothing (the
accumulated message is blank), opens the section's repo, and accumulates
exactly two newlines from the two blank lines. -/
lemma section_fold (st : ParseState) (r : StagedRepo)
    (hm : onlyNewlines st.currentMessage) :
    (chunkLines (sectionChunks r)).foldl parseLine st =
      ⟨st.commits,
       some (headerName ("========== " ++ r.name ++ " ==========")), "\n\n"⟩ := by
  have h2a : ("# " : String).data = ['#', ' '] := by decide
  obtain ⟨u, hu⟩ : ∃ u, ("# " ++ toString r.files.length ++ " file(s) staged: " ++
      joinComma r.files).data = '#' :: u := by
    have hsplit : ("# " ++ toString r.files.length ++ " file(s) staged: " ++
        joinComma r.files).data =
        ("# " : String).data ++ ((toString r.files.length).data ++
          ((" file(s) staged: " : String).data ++ (joinComma r.files).data)) := by
      simp [String.data_append]
    rw [hsplit, h2a]
    exact ⟨_, rfl⟩
  obtain ⟨t2, ht2⟩ := stripCR_hash u
  have hblank : String.mk (stripCR []) = "" := by decide
  have h4 : String.mk (stripCR ("# Enter commit message above this line").data) =
      String.mk ('#' :: (" Enter commit message above this line").data) := by decide
  simp only [chunkLines, sectionChunks, List.map_cons, List.map_nil,
    List.foldl_cons, List.foldl_nil]
  rw [parseLine_header st r.name, hu, ht2, parseLine_comment, hblank,
    parseLine_blank_some, h4, parseLine_comment, parseLine_blank_some,
    flushSection_onlyNewlines _ _ _ hm]
  have hmsg : (("" ++ "" ++ "\n" : String) ++ "" ++ "\n") = "\n\n" := by decide
  rw [hmsg]

lemma onlyNewlines_pair : onlyNewlines "\n\n" := by
  intro c hc
  have hdata : ("\n\n" : String).data = ['\n', '\n'] := by decide
  simp only [hdata, List.mem_cons, List.not_mem_nil, or_false] at hc
  rcases hc with rfl | rfl <;> rfl

lemma onlyNewlines_empty : onlyNewlines "" := by
  intro c hc
  have hdata : ("" : String).data = [] := by decide
  simp [hdata] at hc

/-- Folding the parser over all generated sections keeps the commit list
unchanged and the accumulated message blank. -/
lemma sections_fold (repos : List StagedRepo) (st : ParseState)
    (hm : onlyNewlines st.currentMessage) :
    ((repos.flatMap fun r => chunkLines (sectionChunks r)).foldl parseLine st).commits
        = st.commits ∧
    onlyNewlines
      ((repos.flatMap fun r => chunkLines (sectionChunks r)).foldl parseLine st).currentMessage := by
  induction repos generalizing st with
  | nil => exact ⟨rfl, hm⟩
  | cons r rs ih =>
      rw [List.flatMap_cons, List.foldl_append, section_fold st r hm]
      exact ih _ onlyNewlines_pair

/-- Claim C4, counterexample: For an arbitrary entry list the claim is false:
if a staged file name contains a newline (`files = ["f\nx"]`), the text
after the newline escapes the `#`-comment line of the template, and parsing
the unmodified template yields the non-empty commit list
`[("repo-a", "x")]`. -/
theorem commit_template_roundtrip_counterexample :
    parse_multi_commit_file (commitTemplate [newlineFileRepo]) =
      [("repo-a", "x")] := by decide

/-- Claim C4, amended: For every list of staged-repo entries whose names and
staged file names contain no newline character (as is the case for every
entry the program builds, since staged file names are single lines of
`git diff --cached --name-only` output), parsing the unmodified commit
template with `parse_multi_commit_file` yields the empty list of
`(repo, message)` pairs. -/
theorem commit_template_roundtrip_empty (repos : List StagedRepo)
    (h : ∀ r ∈ repos, '\n' ∉ r.name.data ∧ ∀ f ∈ r.files, '\n' ∉ f.data) :
    parse_multi_commit_file (commitTemplate repos) = [] := by
  show flushSection
    ((rustLines (commitTemplate repos)).foldl parseLine ⟨[], none, ""⟩).commits
    ((rustLines (commitTemplate repos)).foldl parseLine ⟨[], none, ""⟩).currentRepo
    ((rustLines (commitTemplate repos)).foldl parseLine ⟨[], none, ""⟩).currentMessage = []
  rw [rustLines_commitTemplate repos h, List.foldl_append]
  have hpre : (chunkLines preambleChunks).foldl parseLine ⟨[], none, ""⟩ =
      ⟨[], none, ""⟩ := by decide
  rw [hpre]
  obtain ⟨hc, hm⟩ := sections_fold repos ⟨[], none, ""⟩ onlyNewlines_empty
  rw [flushSection_onlyNewlines _ _ _ hm, hc]

/-- A typical staged repo (newline-free names, as produced by git). -/
def sampleStagedRepo : StagedRepo :=
  { name := "api", path := "/ws/api", files := ["src/main.rs", "Cargo.toml"] }

/-- Witness for `commit_template_roundtrip_empty` at a concrete entry
list. -/
theorem commit_template_roundtrip_empty_witness :
    parse_multi_commit_file (commitTemplate [sampleStagedRepo]) = [] :=
  commit_template_roundtrip_empty [sampleStagedRepo] (by decide)

/-! ## Worktree create (`src/commands/worktree/create.rs`)

`handle_create` runs, in this order: the root (`.`) worktree creation, the
child worktree creations, the `.gitignore` update, and only then the store
write (`store_add`, line 255). A repo's `git_worktree_add` outcome is
abstracted as a boolean; the surrounding control flow (skip-with-warning
under `--from-ref`, bail under `strict` or without `--from-ref`) is
translated verbatim. The error value carries the effects performed before
the bail, so that error paths can be inspected. -/

/-- Observable side effects of `handle_create`. -/
inductive CreateEffect
  /-- Effect where `git worktree add` succeeded for this alias: a directory now exists. -/
  | worktreeAdded (repoAlias : String)
  /-- Effect where `warn_or_bail` printed a skip warning for this alias. -/
  | skipWarning (repoAlias : String)
  /-- Effect where `.gitignore` was checked/updated. -/
  | gitignoreEnsured
  /-- Effect where `store_add` wrote the set's store entry. -/
  | storeWritten
deriving DecidableEq, Repr

/-- The worktree-creation loop of `handle_create` (the `.` repo first, then
the children; both share this error structure). Each repo is an
`(alias, git_worktree_add succeeded)` pair. -/
def createRepoLoop (repos : List (String × Bool)) (fromRef : Option String)
    (strict : Bool) (eff : List CreateEffect) :
    Except (List CreateEffect) (List CreateEffect) :=
  match repos with
  | [] => .ok eff
  | (repoAlias, ok) :: rest =>
      if ok then
        createRepoLoop rest fromRef strict (eff ++ [.worktreeAdded repoAlias])
      else
        match fromRef with
        | some _ =>
            if strict then .error eff
            else createRepoLoop rest fromRef strict (eff ++ [.skipWarning repoAlias])
        | none => .error eff

/-- Source `handle_create` from the worktree-creation loop onward: on success the
`.gitignore` update and the store write follow the loop. -/
def handle_create_model (repos : List (String × Bool)) (fromRef : Option String)
    (strict : Bool) : Except (List CreateEffect) (List CreateEffect) :=
  match createRepoLoop repos fromRef strict [] with
  | .error eff => .error eff
  | .ok eff => .ok (eff ++ [.gitignoreEnsured, .storeWritten])

lemma createRepoLoop_no_store (repos : List (String × Bool))
    (fromRef : Option String) (strict : Bool) (eff : List CreateEffect)
    (heff : CreateEffect.storeWritten ∉ eff) :
    (∀ eff', createRepoLoop repos fromRef strict eff = .error eff' →
      CreateEffect.storeWritten ∉ eff') ∧
    (∀ eff', createRepoLoop repos fromRef strict eff = .ok eff' →
      CreateEffect.storeWritten ∉ eff') := by
  induction repos generalizing eff with
  | nil =>
      refine ⟨fun eff' h => ?_, fun eff' h => ?_⟩
      · simp [createRepoLoop] at h
      · simp only [createRepoLoop, Except.ok.injEq] at h
        exact h ▸ heff
  | cons p rest ih =>
      obtain ⟨repoAlias, ok⟩ := p
      by_cases hok : ok
      · have hnext : CreateEffect.storeWritten ∉ eff ++ [CreateEffect.worktreeAdded repoAlias] := by
          simp [heff]
        simpa [createRepoLoop, hok] using ih _ hnext
      · cases hfr : fromRef with
        | none =>
            refine ⟨fun eff' h => ?_, fun eff' h => ?_⟩
            · simp only [createRepoLoop, hok, hfr, Bool.false_eq_true, if_false,
                Except.error.injEq] at h
              exact h ▸ heff
            · simp [createRepoLoop, hok, hfr] at h
        | some r =>
            by_cases hs : strict
            · refine ⟨fun eff' h => ?_, fun eff' h => ?_⟩
              · simp only [createRepoLoop, hok, hfr, hs, Bool.false_eq_true,
                  if_false, if_true, Except.error.injEq] at h
                exact h ▸ heff
              · simp [createRepoLoop, hok, hfr, hs] at h
            · have hnext : CreateEffect.storeWritten ∉ eff ++ [CreateEffect.skipWarning repoAlias] := by
                simp [heff]
              simpa [createRepoLoop, hok, hfr, hs] using ih _ hnext

/-- Claim C5: Whenever the modelled `handle_create` returns an error — a child
`git worktree add` failure without `--from-ref`, or a strict-mode skip under
`--from-ref` — the store entry has not been written; the error effects may
still contain `worktreeAdded` entries for repos created before the failure,
which remain on disk. -/
theorem worktree_create_store_only_after_children
    (repos : List (String × Bool)) (fromRef : Option String) (strict : Bool)
    (eff : List CreateEffect)
    (h : handle_create_model repos fromRef strict = .error eff) :
    CreateEffect.storeWritten ∉ eff := by
  unfold handle_create_model at h
  rcases hloop : createRepoLoop repos fromRef strict [] with eff' | eff'
  · rw [hloop] at h
    simp only [Except.error.injEq] at h
    exact h ▸ (createRepoLoop_no_store repos fromRef strict [] (by simp)).1 eff' hloop
  · rw [hloop] at h
    simp at h

/-- Witness for `worktree_create_store_only_after_children`: the root repo
succeeds, the child `lib` fails without `--from-ref`; the command errors,
the root worktree directory remains recorded as created, and no store write
happened. -/
theorem worktree_create_store_only_after_children_witness :
    handle_create_model [(".", true), ("lib", false)] none false =
      .error [CreateEffect.worktreeAdded "."] ∧
    CreateEffect.storeWritten ∉ [CreateEffect.worktreeAdded "."] :=
  ⟨by rfl,
   worktree_create_store_only_after_children [(".", true), ("lib", false)]
     none false [CreateEffect.worktreeAdded "."] (by rfl)⟩

/-! ## Worktree prune (`src/commands/worktree/prune.rs`)

The non-dry-run removal loop of `handle_prune` (lines 185-213): for each
entry scheduled for pruning, if its set directory exists, run a best-effort
`git worktree remove` per child and a recursive directory delete; record the
entry as removed only if the directory is gone afterwards; a surviving
directory triggers `warn_or_bail` (warn and retain the entry, or bail under
`--strict`). After the loop, all recorded keys are batch-removed from the
store in a single call. In dry-run mode the function returns after printing,
touching neither the filesystem nor the store. -/

/-- One store entry scheduled for pruning, with its filesystem behaviour
abstracted: whether the set directory exists when the loop reaches it, and
whether the cleanup attempt leaves it gone. -/
structure PruneEntryM where
  path : String
  existsBefore : Bool
  removalSucceeds : Bool
deriving DecidableEq, Repr

/-- Observable side effects of `handle_prune`. -/
inductive PruneEffect
  /-- Effect where `git worktree remove` per child plus `remove_dir_all` were attempted
  on this path. -/
  | fsCleanup (path : String)
  /-- Effect where `warn_or_bail` printed a removal-failure warning for this path. -/
  | warned (path : String)
  /-- Effect where `store_remove_batch` removed exactly these keys. -/
  | storeBatchRemoved (keys : List String)
deriving DecidableEq, Repr

/-- The removal loop of `handle_prune`. -/
def pruneLoop (entries : List PruneEntryM) (strict : Bool)
    (removed : List String) (eff : List PruneEffect) :
    Except (List PruneEffect) (List String × List PruneEffect) :=
  match entries with
  | [] => .ok (removed, eff)
  | e :: rest =>
      if e.existsBefore then
        if !e.removalSucceeds then
          if strict then .error (eff ++ [.fsCleanup e.path])
          else pruneLoop rest strict removed
            (eff ++ [.fsCleanup e.path, .warned e.path])
        else pruneLoop rest strict (removed ++ [e.path])
          (eff ++ [.fsCleanup e.path])
      else pruneLoop rest strict (removed ++ [e.path]) eff

/-- Source `handle_prune` after classification: dry-run prints only; otherwise run
the removal loop and batch-remove the recorded keys from the store. -/
def handle_prune_model (entries : List PruneEntryM) (dryRun strict : Bool) :
    Except (List PruneEffect) (List PruneEffect) :=
  if dryRun then .ok []
  else
    match pruneLoop entries strict [] [] with
    | .error eff => .error eff
    | .ok (removed, eff) => .ok (eff ++ [.storeBatchRemoved removed])

/-- An entry is recorded as removed iff its directory is gone after the
cleanup attempt (or was never there). -/
def cleanupGone (e : PruneEntryM) : Bool :=
  !e.existsBefore || e.removalSucceeds

/-- The loop effects contributed by one entry. -/
def pruneEntryEffects (e : PruneEntryM) : List PruneEffect :=
  if e.existsBefore then
    if !e.removalSucceeds then [.fsCleanup e.path, .warned e.path]
    else [.fsCleanup e.path]
  else []

lemma pruneLoop_ok (entries : List PruneEntryM) (strict : Bool)
    (removed : List String) (eff : List PruneEffect)
    (removed' : List String) (eff' : List PruneEffect)
    (h : pruneLoop entries strict removed eff = .ok (removed', eff')) :
    removed' = removed ++ (entries.filter cleanupGone).map PruneEntryM.path ∧
    eff' = eff ++ entries.flatMap pruneEntryEffects := by
  induction entries generalizing removed eff with
  | nil =>
      simp only [pruneLoop, Except.ok.injEq, Prod.mk.injEq] at h
      simp [← h.1, ← h.2]
  | cons e rest ih =>
      by_cases hex : e.existsBefore
      · by_cases hrem : e.removalSucceeds
        · simp only [pruneLoop, hex, hrem, if_true, Bool.not_true,
            Bool.false_eq_true, if_false] at h
          obtain ⟨h1, h2⟩ := ih _ _ h
          constructor
          · rw [h1]
            simp [List.filter_cons, cleanupGone, hex, hrem]
          · rw [h2]
            simp [pruneEntryEffects, hex, hrem]
        · simp only [pruneLoop, hex, hrem, if_true, Bool.not_false] at h
          by_cases hs : strict
          · simp [hs] at h
          · rw [Bool.not_eq_true] at hs
            subst hs
            simp only [Bool.false_eq_true, if_false] at h
            obtain ⟨h1, h2⟩ := ih _ _ h
            constructor
            · rw [h1]
              simp [List.filter_cons, cleanupGone, hex, hrem]
            · rw [h2]
              simp [pruneEntryEffects, hex, hrem]
      · simp only [pruneLoop, hex, Bool.false_eq_true, if_false] at h
        obtain ⟨h1, h2⟩ := ih _ _ h
        constructor
        · rw [h1]
          simp [List.filter_cons, cleanupGone, hex]
        · rw [h2]
          simp [pruneEntryEffects, hex]

lemma pruneEntryEffects_no_store (e : PruneEntryM) (keys : List String) :
    PruneEffect.storeBatchRemoved keys ∉ pruneEntryEffects e := by
  unfold pruneEntryEffects
  by_cases hex : e.existsBefore <;> by_cases hrem : e.removalSucceeds <;>
    simp [hex, hrem]

lemma pruneLoop_error_no_store (entries : List PruneEntryM) (strict : Bool)
    (removed : List String) (eff : List PruneEffect) (eff' : List PruneEffect)
    (heff : ∀ keys, PruneEffect.storeBatchRemoved keys ∉ eff)
    (h : pruneLoop entries strict removed eff = .error eff') :
    ∀ keys, PruneEffect.storeBatchRemoved keys ∉ eff' := by
  induction entries generalizing removed eff with
  | nil => simp [pruneLoop] at h
  | cons e rest ih =>
      by_cases hex : e.existsBefore
      · by_cases hrem : e.removalSucceeds
        · simp only [pruneLoop, hex, hrem, if_true, Bool.not_true,
            Bool.false_eq_true, if_false] at h
          exact ih _ _ (by simp [heff]) h
        · simp only [pruneLoop, hex, hrem, if_true, Bool.not_false] at h
          by_cases hs : strict
          · simp only [hs, if_true, Except.error.injEq] at h
            intro keys
            rw [← h]
            simp [heff]
          · rw [Bool.not_eq_true] at hs
            subst hs
            simp only [Bool.false_eq_true, if_false] at h
            exact ih _ _ (by simp [heff]) h
      · simp only [pruneLoop, hex, Bool.false_eq_true, if_false] at h
        exact ih _ _ heff h

/-- Claim C6: In a non-dry-run prune, a key is batch-removed from the store
only if the entry's set directory no longer exists after the cleanup attempt
(it was absent, or the removal succeeded); an entry whose directory removal
fails is not in the batch-removed keys and a warning is reported for it
(under `--strict` the command errors before any store update); and in
dry-run mode prune performs no filesystem cleanup and no store removal at
all. -/
theorem worktree_prune_store_contract (entries : List PruneEntryM)
    (strict : Bool) (hnd : (entries.map PruneEntryM.path).Nodup) :
    (∀ s, handle_prune_model entries true s = .ok []) ∧
    (∀ eff keys, handle_prune_model entries false strict = .ok eff →
        PruneEffect.storeBatchRemoved keys ∈ eff →
        (∀ k ∈ keys, ∃ e ∈ entries, e.path = k ∧ cleanupGone e = true) ∧
        (∀ e ∈ entries, e.existsBefore = true → e.removalSucceeds = false →
          e.path ∉ keys ∧ PruneEffect.warned e.path ∈ eff)) ∧
    (∀ eff keys, handle_prune_model entries false strict = .error eff →
        PruneEffect.storeBatchRemoved keys ∉ eff) := by
  refine ⟨fun s => rfl, ?_, ?_⟩
  · intro eff keys h hkeys
    unfold handle_prune_model at h
    simp only [Bool.false_eq_true, if_false] at h
    rcases hloop : pruneLoop entries strict [] [] with effE | ⟨removed, effL⟩
    · rw [hloop] at h
      simp at h
    · rw [hloop] at h
      simp only [Except.ok.injEq] at h
      obtain ⟨hrem, heffL⟩ := pruneLoop_ok entries strict [] [] removed effL hloop
      simp only [List.nil_append] at hrem heffL
      subst h
      have hkeysEq : keys = removed := by
        rcases List.mem_append.mp hkeys with hin | hin
        · exfalso
          rw [heffL] at hin
          obtain ⟨e, _, hine⟩ := List.mem_flatMap.mp hin
          exact pruneEntryEffects_no_store e keys hine
        · simpa using hin
      subst hkeysEq
      constructor
      · intro k hk
        rw [hrem] at hk
        obtain ⟨e, he, hek⟩ := List.mem_map.mp hk
        exact ⟨e, List.mem_of_mem_filter he, hek, List.of_mem_filter he⟩
      · intro e he hex hrs
        have hbad : cleanupGone e = false := by
          simp [cleanupGone, hex, hrs]
        constructor
        · intro hmem
          rw [hrem] at hmem
          obtain ⟨e', he', hpath⟩ := List.mem_map.mp hmem
          have he'mem : e' ∈ entries := List.mem_of_mem_filter he'
          have he'good : cleanupGone e' = true := List.of_mem_filter he'
          have : e' = e :=
            List.inj_on_of_nodup_map hnd he'mem he hpath
          rw [this] at he'good
          rw [hbad] at he'good
          exact Bool.false_ne_true he'good
        · refine List.mem_append.mpr (Or.inl ?_)
          rw [heffL]
          refine List.mem_flatMap.mpr ⟨e, he, ?_⟩
          simp [pruneEntryEffects, hex, hrs]
  · intro eff keys h
    unfold handle_prune_model at h
    simp only [Bool.false_eq_true, if_false] at h
    rcases hloop : pruneLoop entries strict [] [] with effE | ⟨removed, effL⟩
    · rw [hloop] at h
      simp only [Except.error.injEq] at h
      rw [← h]
      exact pruneLoop_error_no_store entries strict [] [] effE
        (fun ks => List.not_mem_nil _) hloop keys
    · rw [hloop] at h
      simp at h

/-- Witness for `worktree_prune_store_contract`: two entries, `/wt/a`
removable and `/wt/b` whose directory survives the removal attempt; in
non-strict mode only `/wt/a` is batch-removed, `/wt/b` is retained and
warned about, and dry-run does nothing. -/
theorem worktree_prune_store_contract_witness :
    (handle_prune_model [⟨"/wt/a", true, true⟩, ⟨"/wt/b", true, false⟩] true false =
      .ok []) ∧
    ("/wt/a" ∈ (["/wt/a"] : List String) ∧
      "/wt/b" ∉ (["/wt/a"] : List String)) ∧
    (∃ e ∈ ([⟨"/wt/a", true, true⟩, ⟨"/wt/b", true, false⟩] : List PruneEntryM),
      e.path = "/wt/a" ∧ cleanupGone e = true) := by
  have hmain := worktree_prune_store_contract
    [⟨"/wt/a", true, true⟩, ⟨"/wt/b", true, false⟩] false (by decide)
  have hok : handle_prune_model
      [⟨"/wt/a", true, true⟩, ⟨"/wt/b", true, false⟩] false false =
      .ok [PruneEffect.fsCleanup "/wt/a", PruneEffect.fsCleanup "/wt/b",
           PruneEffect.warned "/wt/b", PruneEffect.storeBatchRemoved ["/wt/a"]] := by
    rfl
  have hsecond := (hmain.2.1 _ ["/wt/a"] hok (by decide))
  refine ⟨hmain.1 false, ⟨by decide, ?_⟩, ?_⟩
  · exact (hsecond.2 ⟨"/wt/b", true, false⟩ (by decide) rfl rfl).1
  · exact hsecond.1 "/wt/a" (by decide)

/-! ## Snapshot capture (`src/snapshot.rs`)

`execute_snapshot_create` captures repo states in parallel (one result per
listed directory, order preserved), keeps only the states of directories
that exist and are git repos and whose capture succeeded, refuses with
`"No repos captured"` when that set is empty, and calls `save_snapshot` only
otherwise. -/

/-- A captured repo state (`meta_git_lib::snapshot::RepoState`). -/
structure RepoStateM where
  sha : String
  branch : Option String
  dirty : Bool
deriving DecidableEq, Repr

/-- One listed directory with its filesystem condition and the outcome
`capture_repo_state` would produce for it. -/
structure SnapDir where
  dir : String
  existsOnDisk : Bool
  isGitRepo : Bool
  capture : Except String RepoStateM
deriving Repr

/-- The parallel capture pass: `None` for a directory that is missing or
not a git repo, `Some (capture result)` otherwise. -/
def captureResults (dirs : List SnapDir) :
    List (String × Option (Except String RepoStateM)) :=
  dirs.map fun d =>
    (d.dir, if !d.existsOnDisk || !d.isGitRepo then none else some d.capture)

/-- The sequential result pass: keep `(dir, state)` for every successful
capture (the `repos.insert` calls, in order). -/
def capturedRepos (dirs : List SnapDir) : List (String × RepoStateM) :=
  (captureResults dirs).foldl
    (fun acc res =>
      match res with
      | (dir, some (.ok state)) => acc ++ [(dir, state)]
      | _ => acc)
    []

/-- Effects of `execute_snapshot_create`. -/
inductive SnapEffect
  /-- Effect where `save_snapshot` wrote `.meta-snapshots/<name>.json`. -/
  | snapshotSaved (name : String)
deriving DecidableEq, Repr

/-- Source `execute_snapshot_create` after the capture passes: bail out with
`"No repos captured"` when nothing was captured, else save the snapshot. -/
def execute_snapshot_create_model (name : String) (dirs : List SnapDir) :
    Except String (List (String × RepoStateM)) × List SnapEffect :=
  let repos := capturedRepos dirs
  if repos.isEmpty then (.error "No repos captured", [])
  else (.ok repos, [.snapshotSaved name])

lemma capturedRepos_sound (dirs : List SnapDir) :
    ∀ p ∈ capturedRepos dirs, ∃ d ∈ dirs,
      d.dir = p.1 ∧ d.existsOnDisk = true ∧ d.isGitRepo = true ∧
      d.capture = .ok p.2 := by
  suffices h : ∀ (dirs : List SnapDir) (acc : List (String × RepoStateM)),
      ∀ p ∈ (captureResults dirs).foldl
        (fun acc res =>
          match res with
          | (dir, some (.ok state)) => acc ++ [(dir, state)]
          | _ => acc) acc,
      p ∈ acc ∨ ∃ d ∈ dirs,
        d.dir = p.1 ∧ d.existsOnDisk = true ∧ d.isGitRepo = true ∧
        d.capture = .ok p.2 by
    intro p hp
    rcases h dirs [] p hp with hacc | hgood
    · exact absurd hacc (List.not_mem_nil p)
    · exact hgood
  intro dirs
  induction dirs with
  | nil => intro acc p hp; exact Or.inl hp
  | cons d rest ih =>
      intro acc p hp
      obtain ⟨dir, ex, git, cap⟩ := d
      have keep : ∀ hp' : p ∈ acc ∨ ∃ d' ∈ rest,
          d'.dir = p.1 ∧ d'.existsOnDisk = true ∧ d'.isGitRepo = true ∧
          d'.capture = .ok p.2,
          p ∈ acc ∨ ∃ d' ∈ (⟨dir, ex, git, cap⟩ : SnapDir) :: rest,
            d'.dir = p.1 ∧ d'.existsOnDisk = true ∧ d'.isGitRepo = true ∧
            d'.capture = .ok p.2 := by
        rintro (hacc | ⟨d', hd', hprops⟩)
        · exact Or.inl hacc
        · exact Or.inr ⟨d', List.mem_cons_of_mem _ hd', hprops⟩
      cases ex with
      | false => exact keep (ih acc p hp)
      | true =>
          cases git with
          | false => exact keep (ih acc p hp)
          | true =>
              cases cap with
              | error e => exact keep (ih acc p hp)
              | ok st =>
                  rcases ih (acc ++ [(dir, st)]) p hp with hacc | ⟨d', hd', hprops⟩
                  · rcases List.mem_append.mp hacc with hl | hr
                    · exact Or.inl hl
                    · simp only [List.mem_singleton] at hr
                      subst hr
                      exact Or.inr ⟨⟨dir, true, true, .ok st⟩,
                        List.mem_cons_self _ _, rfl, rfl, rfl, rfl⟩
                  · exact Or.inr ⟨d', List.mem_cons_of_mem _ hd', hprops⟩

/-- Claim C7: Snapshot capture records a repo state only for listed
directories that exist on disk, are git repositories, and whose capture
succeeded; and when the set of captured states is empty it returns the
`"No repos captured"` error without writing any snapshot file (the
`snapshotSaved` effect occurs exactly when the set is non-empty). -/
theorem snapshot_create_captures_only_git_repos (name : String)
    (dirs : List SnapDir) :
    (∀ p ∈ (execute_snapshot_create_model name dirs).1.toOption.getD [],
      ∃ d ∈ dirs, d.dir = p.1 ∧ d.existsOnDisk = true ∧
        d.isGitRepo = true ∧ d.capture = .ok p.2) ∧
    (capturedRepos dirs = [] →
      (execute_snapshot_create_model name dirs).1 = .error "No repos captured" ∧
      (execute_snapshot_create_model name dirs).2 = []) ∧
    ((execute_snapshot_create_model name dirs).2 =
      if (capturedRepos dirs).isEmpty then [] else [.snapshotSaved name]) := by
  refine ⟨?_, ?_, ?_⟩
  · intro p hp
    apply capturedRepos_sound dirs
    unfold execute_snapshot_create_model at hp
    by_cases hemp : (capturedRepos dirs).isEmpty
    · simp [hemp, Except.toOption] at hp
    · simpa [hemp, Except.toOption] using hp
  · intro hemp
    have : (capturedRepos dirs).isEmpty = true := by simp [hemp]
    constructor <;> simp [execute_snapshot_create_model, this]
  · by_cases hemp : (capturedRepos dirs).isEmpty <;>
      simp [execute_snapshot_create_model, hemp]

/-- Witness for `snapshot_create_captures_only_git_repos`: one proper git
repo and one plain directory; only the repo is captured, the snapshot is
saved; and a second run over a git-less listing errors without saving. -/
theorem snapshot_create_captures_only_git_repos_witness :
    ((execute_snapshot_create_model "snap"
        [⟨"api", true, true, .ok ⟨"0123abcd", some "main", false⟩⟩,
         ⟨"docs", true, false, .error "not a repo"⟩]).1 =
      .ok [("api", ⟨"0123abcd", some "main", false⟩)]) ∧
    (∃ d ∈ ([⟨"api", true, true, .ok ⟨"0123abcd", some "main", false⟩⟩,
             ⟨"docs", true, false, .error "not a repo"⟩] : List SnapDir),
      d.dir = "api" ∧ d.existsOnDisk = true ∧ d.isGitRepo = true ∧
        d.capture = .ok ⟨"0123abcd", some "main", false⟩) ∧
    ((execute_snapshot_create_model "snap"
        [⟨"docs", true, false, .error "not a repo"⟩]).1 =
      .error "No repos captured" ∧
     (execute_snapshot_create_model "snap"
        [⟨"docs", true, false, .error "not a repo"⟩]).2 = []) := by
  refine ⟨by rfl, ?_, ?_⟩
  · exact (snapshot_create_captures_only_git_repos "snap" _).1
      ("api", ⟨"0123abcd", some "main", false⟩) (by decide)
  · exact (snapshot_create_captures_only_git_repos "snap" _).2.1 (by rfl)

/-! ## Plan emission environment (`src/git_env.rs`, `src/status.rs`)

`git_env()` centralises the non-interactive git environment (pager off,
prompts off, forced color); `execute_git_status` builds the status
fan-out plan, but sets only `GIT_PAGER=cat` on its planned commands. Rust
`HashMap<String, String>` is modelled as an association list in insertion
order with keyed lookup. -/

/-- Keyed lookup in an environment map. -/
def lookupEnv (env : List (String × String)) (key : String) : Option String :=
  (env.find? fun p => p.1 = key).map Prod.snd

/-- Source `git_env::git_env()`: the five insertions, in source order. -/
def git_env : List (String × String) :=
  [("GIT_PAGER", "cat"),
   ("GIT_TERMINAL_PROMPT", "0"),
   ("GIT_CONFIG_COUNT", "1"),
   ("GIT_CONFIG_KEY_0", "color.ui"),
   ("GIT_CONFIG_VALUE_0", "always")]

/-- Source `git_env::git_env_with_ssh`. -/
def git_env_with_ssh (sshCommand : Option String) : List (String × String) :=
  match sshCommand with
  | some cmd => git_env ++ [("GIT_SSH_COMMAND", cmd)]
  | none => git_env

/-- Source `meta_plugin_protocol::PlannedCommand`: one `{dir, cmd, env}` record of
an emitted plan. -/
structure PlannedCommandM where
  dir : String
  cmd : String
  env : Option (List (String × String))
deriving DecidableEq, Repr

/-- Source `execute_git_status` (`src/status.rs:6-24`): one `git status` command
per project directory, each carrying only `GIT_PAGER=cat`. -/
def execute_git_status (dirs : List String) : List PlannedCommandM :=
  dirs.map fun dir =>
    { dir := dir
      cmd := "git status"
      env := some [("GIT_PAGER", "cat")] }

/-- Source `loop_lib::LoopConfig`, the per-plan execution configuration as
populated by `build_loop_config` (`src/commands/worktree/exec.rs:11-44`);
its `env` field carries the environment attached to every command of the
fan-out. -/
structure LoopConfigM where
  directories : List String
  ignore : List String
  include_filters : Option (List String)
  exclude_filters : Option (List String)
  verbose : Bool
  silent : Bool
  parallel : Bool
  dry_run : Bool
  json_output : Bool
  add_aliases_to_global_looprc : Bool
  spawn_stagger_ms : Nat
  env : Option (List (String × String))
  max_parallel : Option Nat
  root_dir : Option String
deriving Repr

/-- Source `build_loop_config` (`exec.rs:11-44`), field for field. -/
def build_loop_config (directories includeFilters excludeFilters : List String)
    (parallel verbose json : Bool) (env : Option (List (String × String))) :
    LoopConfigM :=
  { directories := directories
    ignore := []
    include_filters := if includeFilters.isEmpty then none else some includeFilters
    exclude_filters := if excludeFilters.isEmpty then none else some excludeFilters
    verbose := verbose
    silent := false
    parallel := parallel
    dry_run := false
    json_output := json
    add_aliases_to_global_looprc := false
    spawn_stagger_ms := 0
    env := env
    max_parallel := none
    root_dir := none }

/-- The loop config built by both worktree exec paths: `handle_exec`
(`exec.rs:90-98`) and `handle_ephemeral_exec` (`exec.rs:157-165`) each call
`build_loop_config` with `Some(git_env())` as the environment. -/
def worktree_exec_config (directories includeFilters excludeFilters : List String)
    (parallel verbose json : Bool) : LoopConfigM :=
  build_loop_config directories includeFilters excludeFilters parallel verbose
    json (some git_env)

/-- Claim C8, counterexample: Not every planned command of the status plan
carries the full environment: for the one-repo plan, no command has both
`GIT_TERMINAL_PROMPT=0` and the forced-color config — `execute_git_status`
sets only `GIT_PAGER=cat` instead of using `git_env()`. -/
theorem status_plan_env_counterexample :
    (execute_git_status ["repo1"]).all
      (fun c =>
        match c.env with
        | some e =>
            (lookupEnv e "GIT_TERMINAL_PROMPT" == some "0") &&
            (lookupEnv e "GIT_CONFIG_VALUE_0" == some "always")
        | none => false) = false := by decide

/-- Claim C8, amended: The centralised `git_env` map does carry all three
settings (`GIT_PAGER=cat`, `GIT_TERMINAL_PROMPT=0`, and the forced-color
`GIT_CONFIG_*` triple), and it is the environment attached to the loop
config of both worktree-exec paths (`build_loop_config` is called with
`Some(git_env())`); the status plan's commands, however, carry only
`GIT_PAGER=cat`, with neither the prompt setting nor the color config. -/
theorem git_env_settings_and_status_plan (dirs includeF excludeF : List String)
    (parallel verbose json : Bool) :
    lookupEnv git_env "GIT_PAGER" = some "cat" ∧
    lookupEnv git_env "GIT_TERMINAL_PROMPT" = some "0" ∧
    lookupEnv git_env "GIT_CONFIG_COUNT" = some "1" ∧
    lookupEnv git_env "GIT_CONFIG_KEY_0" = some "color.ui" ∧
    lookupEnv git_env "GIT_CONFIG_VALUE_0" = some "always" ∧
    (worktree_exec_config dirs includeF excludeF parallel verbose json).env =
      some git_env ∧
    (execute_git_status dirs).all
      (fun c => c.cmd == "git status" &&
        c.env == some [("GIT_PAGER", "cat")]) = true := by
  refine ⟨by decide, by decide, by decide, by decide, by decide, rfl, ?_⟩
  unfold execute_git_status
  rw [List.all_eq_true]
  intro c hc
  obtain ⟨dir, _, rfl⟩ := List.mem_map.mp hc
  show (("git status" == "git status") &&
    (some [("GIT_PAGER", "cat")] == some [("GIT_PAGER", "cat")])) = true
  decide

/-! ## Ephemeral worktree exec (`src/commands/worktree/exec.rs`)

`handle_ephemeral_exec` builds `CreateArgs` with `strict: false` and calls
`handle_create` with `global_strict = false`; the `EphemeralGuard` destroys
the set on drop with `force: true` and `strict = false`, turning any destroy
error into a printed warning; the exec result is propagated unchanged after
the guard is dropped. -/

/-- The `CreateArgs` fields relevant to strictness, as built by
`handle_ephemeral_exec` (`exec.rs:119-132`). -/
structure CreateArgsM where
  name : String
  ephemeral : Bool
  ttl : Option Nat
  strict : Bool
  noDeps : Bool
deriving DecidableEq, Repr

/-- The `CreateArgs` built for the implicit ephemeral create. -/
def ephemeralCreateArgs (name : String) : CreateArgsM :=
  { name := name, ephemeral := true, ttl := none, strict := false
    noDeps := false }

/-- The `global_strict` argument of the implicit `handle_create` call
(`exec.rs:138`). -/
def ephemeralCreateGlobalStrict : Bool := false

/-- Source `create.rs:24`: strict mode is the disjunction of the local and global
flags. -/
def effectiveStrict (argsStrict globalStrict : Bool) : Bool :=
  argsStrict || globalStrict

/-- Source `DestroyArgs` as built by `EphemeralGuard::drop` (`exec.rs:59-62`). -/
structure DestroyArgsM where
  name : String
  force : Bool
deriving DecidableEq, Repr

/-- The guard always destroys with `force: true`. -/
def guardDestroyArgs (name : String) : DestroyArgsM :=
  { name := name, force := true }

/-- The guard calls `handle_destroy` with `strict = false` (`exec.rs:64`). -/
def guardDestroyStrict : Bool := false

/-- The dirty-repo gate of `handle_destroy`
(`src/commands/worktree/destroy.rs:29-47`): without `--force`, a non-empty
dirty list aborts; with `--force` the check is skipped entirely. -/
def destroyDirtyBail (force : Bool) (dirtyRepos : List String) :
    Option String :=
  if !force then
    if !dirtyRepos.isEmpty then
      some ("uncommitted changes in: " ++ joinComma dirtyRepos)
    else none
  else none

/-- Source `EphemeralGuard::drop` (`exec.rs:54-77`): a destroy error becomes a
printed warning; nothing is returned. -/
def guardDrop (name : String) (destroyResult : Except String Unit) :
    List String :=
  match destroyResult with
  | .ok _ => []
  | .error e =>
      ["warning: Failed to destroy ephemeral worktree '" ++ name ++ "': " ++ e]

/-- Tail of `handle_ephemeral_exec` (`exec.rs:167-174`): drop the guard
(collecting its warnings), then propagate the exec result unchanged. -/
def ephemeralExecResult (name : String) (execResult : Except String Unit)
    (destroyResult : Except String Unit) :
    Except String Unit × List String :=
  (execResult, guardDrop name destroyResult)

/-- Claim C10: For worktree exec with `--ephemeral`: the implicit create runs
with both the local and the global strict flag off (so effective strict mode
is off), the cleanup destroy always passes `force = true` and `strict =
false` — under which the dirty-repo check of `handle_destroy` never fires,
whatever uncommitted changes exist — and a cleanup failure only yields a
warning while the command's result stays the exec result. -/
theorem worktree_ephemeral_exec_forces_cleanup (name e : String)
    (dirty : List String) (execR destroyR : Except String Unit) :
    (ephemeralCreateArgs name).strict = false ∧
    effectiveStrict (ephemeralCreateArgs name).strict
      ephemeralCreateGlobalStrict = false ∧
    (guardDestroyArgs name).force = true ∧
    guardDestroyStrict = false ∧
    destroyDirtyBail (guardDestroyArgs name).force dirty = none ∧
    (ephemeralExecResult name execR destroyR).1 = execR ∧
    guardDrop name (.error e) =
      ["warning: Failed to destroy ephemeral worktree '" ++ name ++ "': " ++ e] :=
  ⟨rfl, rfl, rfl, rfl, rfl, rfl, rfl⟩

end MetaGit
